import Mathlib

/-!
# Verification of the sensor ingestion-and-aggregation core (function_app.py)

A shallow embedding of the Azure Functions app in `function_app.py`:
the reading generator `generate_sensor_readings`, the two ingestion
handlers `generate_http` and `generate_timer` (each opening a pyodbc
connection, executing one INSERT per reading, then committing), and the
statistics handler `stats_http` (a GROUP BY / ORDER BY aggregation query).

Numeric measurements are modelled as rationals (`ℚ`); Python floats and
SQL float columns are treated as exact arithmetic.  Timestamps are opaque
naturals.  The durable SQL table is a list of rows in insertion order.
-/

/-- One generated observation, as built by `generate_sensor_readings`
(dict keys `sensor_id`, `temperature`, `wind`, `humidity`, `co2`). -/
structure SensorReading where
  sensor_id : Nat
  temperature : ℚ
  wind : ℚ
  humidity : ℚ
  co2 : ℚ
deriving DecidableEq, Repr

/-- Python `random.uniform(a, b)`: `a + (b - a) * u` for a randomness
draw `u ∈ [0, 1]`. -/
def uniform (a b u : ℚ) : ℚ := a + (b - a) * u

/-- `generate_sensor_readings` from `function_app.py`: the loop
`for sensor_id in range(1, num_sensors + 1)` appending one reading per
sensor, each metric drawn by `random.uniform` over its fixed range.
The source fixes the local `num_sensors = 20`; here it is the parameter
`num_sensors`, and `rand k` is the `k`-th draw of the randomness source
(four draws per loop iteration, in source order). -/
def generate_sensor_readings (num_sensors : Nat) (rand : Nat → ℚ) :
    List SensorReading :=
  (List.range num_sensors).map (fun k =>
    { sensor_id := k + 1
      temperature := uniform 5 18 (rand (4 * k))
      wind := uniform 12 24 (rand (4 * k + 1))
      humidity := uniform 30 60 (rand (4 * k + 2))
      co2 := uniform 400 1600 (rand (4 * k + 3)) })

/-- A persisted row of the `SensorReadings` table
(columns `SensorId, Temperature, WindSpeed, Humidity, CO2, ReadingTimeUtc`). -/
structure Row where
  sensorId : Nat
  temperature : ℚ
  windSpeed : ℚ
  humidity : ℚ
  co2 : ℚ
  readingTimeUtc : Nat
deriving DecidableEq, Repr

/-- The INSERT statement's parameter binding: one reading plus the
batch timestamp becomes one row. -/
def toRow (ts : Nat) (r : SensorReading) : Row :=
  { sensorId := r.sensor_id
    temperature := r.temperature
    windSpeed := r.wind
    humidity := r.humidity
    co2 := r.co2
    readingTimeUtc := ts }

/-- Modelled from the spec: a pyodbc connection to the store (the Azure
SQL database itself is not in `src/`).  pyodbc opens connections with
autocommit off, so `cursor.execute(INSERT ...)` adds the row to an
uncommitted transaction buffer; `commit` publishes the buffer;
`close` without a commit rolls the buffer back. -/
structure Conn where
  base : List Row
  buffer : List Row
deriving DecidableEq, Repr

/-- `cursor.execute("INSERT INTO SensorReadings ...", ...)`: stage one
row in the connection's open transaction. -/
def Conn.execInsert (c : Conn) (r : Row) : Conn :=
  { c with buffer := c.buffer ++ [r] }

/-- `conn.commit()`: publish the staged rows to the durable table. -/
def Conn.commit (c : Conn) : Conn :=
  { base := c.base ++ c.buffer, buffer := [] }

/-- `conn.close()`: the durable table after closing; an uncommitted
transaction is rolled back, so only `base` survives. -/
def Conn.close (c : Conn) : List Row := c.base

/-- A failure injected into one ingestion call: `connect` (store
unreachable at `pyodbc.connect`), `exec i` (the `i`-th
`cursor.execute` raises), or `commitFail` (`conn.commit()` raises). -/
inductive IngestFail where
  | connect : IngestFail
  | exec (i : Nat) : IngestFail
  | commitFail : IngestFail
deriving DecidableEq, Repr

/-- Whether an injected failure actually fires on a batch of `n` rows
(an `exec i` with `i ≥ n` never runs, so it is no failure). -/
def ingestFails (fail : Option IngestFail) (n : Nat) : Bool :=
  match fail with
  | none => false
  | some .connect => true
  | some (.exec i) => i < n
  | some .commitFail => true

/-- The insert loop `for r in readings: cursor.execute(...)`, with an
optional exception at the `failIdx`-th iteration.  On an exception the
loop aborts, returning the connection state at the raise (`.error`);
otherwise all rows are staged (`.ok`). -/
def runInserts (c : Conn) (rows : List Row) (failIdx : Option Nat) :
    Except Conn Conn :=
  match rows, failIdx with
  | [], _ => .ok c
  | _ :: _, some 0 => .error c
  | r :: rs, f => runInserts (c.execInsert r) rs (f.map (· - 1))

/-- The HTTP response of `generate_http`: the 200 JSON body
`{inserted, timestamp, readings}` or the 500 error text. -/
inductive HttpResp where
  | ok (inserted : Nat) (timestamp : Nat) (readings : List SensorReading)
  | error (body : String)
deriving DecidableEq, Repr

/-- HTTP status code of a response. -/
def HttpResp.status : HttpResp → Nat
  | .ok _ _ _ => 200
  | .error _ => 500

/-- `generate_http` from `function_app.py`, as a function of the durable
store, the generated readings, the batch timestamp and an injected
failure.  Connect failure: the `try` body never runs, the `except`
returns 500 (the `finally`'s `conn.close()` hits an unbound name and is
swallowed), store unchanged.  Execute failure: the `except` returns 500
before any commit, and `conn.close()` in `finally` rolls back the open
transaction.  Commit failure: likewise rolled back at close.  Success:
the commit publishes the batch and the 200 JSON body echoes
`inserted = len(readings)`, the timestamp and the readings. -/
def generate_http (store : List Row) (readings : List SensorReading)
    (ts : Nat) (fail : Option IngestFail) : List Row × HttpResp :=
  match fail with
  | some .connect =>
    (store, .error "Error inserting into SQL")
  | _ =>
    let c : Conn := { base := store, buffer := [] }
    let failIdx : Option Nat :=
      match fail with
      | some (.exec i) => some i
      | _ => none
    match runInserts c (readings.map (toRow ts)) failIdx with
    | .error cAtRaise =>
      (cAtRaise.close, .error "Error inserting into SQL")
    | .ok cDone =>
      match fail with
      | some .commitFail => (cDone.close, .error "Error inserting into SQL")
      | _ => (cDone.commit.close, .ok readings.length ts readings)

/-- The timer handler's observable outcome: the success log line or the
error log line (it has no HTTP caller). -/
inductive TimerLog where
  | inserted (count : Nat) : TimerLog
  | errorLogged (msg : String) : TimerLog
deriving DecidableEq, Repr

/-- `generate_timer` from `function_app.py`: identical connect /
insert-loop / commit structure to `generate_http`, but failures are only
logged (`except: logging.error`) and success logs the inserted count;
the `finally` closes the connection on every path. -/
def generate_timer (store : List Row) (readings : List SensorReading)
    (ts : Nat) (fail : Option IngestFail) : List Row × TimerLog :=
  match fail with
  | some .connect =>
    (store, .errorLogged "Timer trigger SQL error")
  | _ =>
    let c : Conn := { base := store, buffer := [] }
    let failIdx : Option Nat :=
      match fail with
      | some (.exec i) => some i
      | _ => none
    match runInserts c (readings.map (toRow ts)) failIdx with
    | .error cAtRaise =>
      (cAtRaise.close, .errorLogged "Timer trigger SQL error")
    | .ok cDone =>
      match fail with
      | some .commitFail => (cDone.close, .errorLogged "Timer trigger SQL error")
      | _ => (cDone.commit.close, .inserted readings.length)

/-- SQL `MIN(col)` over a (nonempty) group of values. -/
def listMin : List ℚ → ℚ
  | [] => 0
  | x :: xs => xs.foldl min x

/-- SQL `MAX(col)` over a (nonempty) group of values. -/
def listMax : List ℚ → ℚ
  | [] => 0
  | x :: xs => xs.foldl max x

/-- SQL `AVG(col)` over a (nonempty) group of values: sum divided by
count. -/
def listAvg (l : List ℚ) : ℚ := l.sum / (l.length : ℚ)

/-- One element of the JSON array built by `stats_http`: the dict with
keys `sensor_id`, `<metric>_min/max/avg` for the four metrics. -/
structure SensorStats where
  sensor_id : Nat
  temperature_min : ℚ
  temperature_max : ℚ
  temperature_avg : ℚ
  wind_min : ℚ
  wind_max : ℚ
  wind_avg : ℚ
  humidity_min : ℚ
  humidity_max : ℚ
  humidity_avg : ℚ
  co2_min : ℚ
  co2_max : ℚ
  co2_avg : ℚ
deriving DecidableEq, Repr

/-- The rows of the `WHERE`-less scan belonging to one `GROUP BY`
group: all stored rows with the given `SensorId`. -/
def rowsFor (store : List Row) (sid : Nat) : List Row :=
  store.filter (fun r => r.sensorId = sid)

/-- The distinct `SensorId` values of the store in ascending order:
the groups of `GROUP BY SensorId` under `ORDER BY SensorId`. -/
def sensorIdsSorted (store : List Row) : List Nat :=
  List.insertionSort (· ≤ ·) (store.map Row.sensorId).dedup

/-- The aggregate row the SELECT produces for one group: `MIN`, `MAX`,
`AVG` of each metric column over the group's rows. -/
def statsFor (store : List Row) (sid : Nat) : SensorStats :=
  { sensor_id := sid
    temperature_min := listMin ((rowsFor store sid).map Row.temperature)
    temperature_max := listMax ((rowsFor store sid).map Row.temperature)
    temperature_avg := listAvg ((rowsFor store sid).map Row.temperature)
    wind_min := listMin ((rowsFor store sid).map Row.windSpeed)
    wind_max := listMax ((rowsFor store sid).map Row.windSpeed)
    wind_avg := listAvg ((rowsFor store sid).map Row.windSpeed)
    humidity_min := listMin ((rowsFor store sid).map Row.humidity)
    humidity_max := listMax ((rowsFor store sid).map Row.humidity)
    humidity_avg := listAvg ((rowsFor store sid).map Row.humidity)
    co2_min := listMin ((rowsFor store sid).map Row.co2)
    co2_max := listMax ((rowsFor store sid).map Row.co2)
    co2_avg := listAvg ((rowsFor store sid).map Row.co2) }

/-- The result set of the query in `stats_http`:
`SELECT SensorId, MIN/MAX/AVG(each metric) FROM SensorReadings
GROUP BY SensorId ORDER BY SensorId` — one aggregate row per distinct
`SensorId`, ascending. -/
def stats_query (store : List Row) : List SensorStats :=
  (sensorIdsSorted store).map (statsFor store)

/-- The HTTP response of `stats_http`: 200 with the JSON array of
per-sensor stats, or 500 with the error text. -/
inductive StatsResp where
  | ok (data : List SensorStats)
  | error (body : String)
deriving DecidableEq, Repr

/-- HTTP status code of a stats response. -/
def StatsResp.status : StatsResp → Nat
  | .ok _ => 200
  | .error _ => 500

/-- `stats_http` from `function_app.py`, threading the durable store
through the call: the handler connects, runs the read-only SELECT of
`stats_query` (no INSERT/UPDATE/DELETE anywhere on this path, so the
table is returned unchanged), and formats the rows; any exception is
caught and reported as 500. -/
def stats_http (store : List Row) (connectFails : Bool) :
    List Row × StatsResp :=
  if connectFails then
    (store, .error "connection error")
  else
    (store, .ok (stats_query store))

/-- Modelled from the spec: one primitive step of the store's
transaction engine, as seen by `N` concurrent ingestion calls (the
Azure SQL engine is not in `src/`; the spec requires per-call
connections with a single transactional write each).  `exec conn r`
is connection `conn` staging row `r`; `commit conn` publishes that
connection's staged rows. -/
inductive DBAction where
  | exec (conn : Nat) (r : Row)
  | commit (conn : Nat)
deriving DecidableEq, Repr

/-- The connection a step belongs to. -/
def DBAction.connOf : DBAction → Nat
  | .exec c _ => c
  | .commit c => c

/-- The shared database under concurrent ingestion calls: the committed
table plus one uncommitted transaction buffer per connection. -/
structure DB where
  committed : List Row
  pending : Nat → List Row

/-- Effect of one engine step on the shared database. -/
def dbStep (s : DB) : DBAction → DB
  | .exec c r =>
    { s with pending := fun j => if j = c then s.pending j ++ [r] else s.pending j }
  | .commit c =>
    { committed := s.committed ++ s.pending c
      pending := fun j => if j = c then [] else s.pending j }

/-- Run an interleaved schedule of engine steps. -/
def dbRun (s : DB) (sched : List DBAction) : DB :=
  sched.foldl dbStep s

/-- The subsequence of a schedule executed by one connection. -/
def connActions (c : Nat) (sched : List DBAction) : List DBAction :=
  sched.filter (fun a => a.connOf = c)

/-- A schedule is an interleaving of `batches.length` ingestion calls,
call `i` owning connection `i`: every step belongs to some call, and
call `i`'s own steps are exactly its batch's inserts in order followed
by its single commit (the per-batch transactional write of the spec,
with no interleaving failures). -/
def validSchedule (sched : List DBAction) (batches : List (List Row)) : Prop :=
  (∀ a ∈ sched, a.connOf < batches.length) ∧
  ∀ i < batches.length,
    connActions i sched =
      (batches.getD i []).map (DBAction.exec i) ++ [DBAction.commit i]

instance (sched : List DBAction) (batches : List (List Row)) :
    Decidable (validSchedule sched batches) := by
  unfold validSchedule
  exact instDecidableAnd

/-- Whether an engine step is an insert. -/
def DBAction.isExec : DBAction → Bool
  | .exec _ _ => true
  | .commit _ => false

/-- Effect of one engine step on a single connection's transaction
buffer (inserts of other connections never touch it). -/
def pendingStep (buf : List Row) : DBAction → List Row
  | .exec _ r => buf ++ [r]
  | .commit _ => []

/-- Total number of rows in the database: committed rows plus the rows
staged in the first `n` connections' open transactions. -/
def dbWeight (n : Nat) (s : DB) : Nat :=
  s.committed.length + ∑ i ∈ Finset.range n, (s.pending i).length

/-! ## Lemmas about the insert loop and the two ingestion handlers -/

theorem runInserts_nil (c : Conn) (f : Option Nat) :
    runInserts c [] f = .ok c := rfl

theorem runInserts_cons_none (c : Conn) (r : Row) (rs : List Row) :
    runInserts c (r :: rs) none = runInserts (c.execInsert r) rs none := rfl

theorem runInserts_cons_zero (c : Conn) (r : Row) (rs : List Row) :
    runInserts c (r :: rs) (some 0) = .error c := rfl

theorem runInserts_cons_succ (c : Conn) (r : Row) (rs : List Row) (i : Nat) :
    runInserts c (r :: rs) (some (i + 1)) =
      runInserts (c.execInsert r) rs (some i) := rfl

theorem runInserts_none (rows : List Row) :
    ∀ c : Conn, runInserts c rows none = .ok ⟨c.base, c.buffer ++ rows⟩ := by
  induction rows with
  | nil => intro c; simp [runInserts_nil]
  | cons r rs ih =>
      intro c
      rw [runInserts_cons_none, ih]
      simp [Conn.execInsert]

theorem runInserts_fail_lt (rows : List Row) :
    ∀ i, i < rows.length → ∀ c : Conn,
      ∃ cAtRaise, runInserts c rows (some i) = .error cAtRaise ∧
        cAtRaise.base = c.base := by
  induction rows with
  | nil => intro i hi; simp at hi
  | cons r rs ih =>
      intro i hi c
      match i with
      | 0 => exact ⟨c, runInserts_cons_zero c r rs, rfl⟩
      | j + 1 =>
          rw [runInserts_cons_succ]
          obtain ⟨cAtRaise, heq, hbase⟩ :=
            ih j (by simpa using hi) (c.execInsert r)
          exact ⟨cAtRaise, heq, hbase⟩

theorem runInserts_fail_ge (rows : List Row) :
    ∀ i, rows.length ≤ i → ∀ c : Conn,
      runInserts c rows (some i) = .ok ⟨c.base, c.buffer ++ rows⟩ := by
  induction rows with
  | nil => intro i _ c; simp [runInserts_nil]
  | cons r rs ih =>
      intro i hi c
      match i with
      | 0 => simp at hi
      | j + 1 =>
          rw [runInserts_cons_succ, ih j (by simpa using hi)]
          simp [Conn.execInsert]

/-- The durable store after `generate_http`: unchanged whenever the
injected failure fires, else the whole batch appended. -/
theorem generate_http_fst (store : List Row) (readings : List SensorReading)
    (ts : Nat) (fail : Option IngestFail) :
    (generate_http store readings ts fail).fst =
      if ingestFails fail readings.length then store
      else store ++ readings.map (toRow ts) := by
  rcases fail with _ | f
  · rw [generate_http]
    simp [runInserts_none, ingestFails, Conn.commit, Conn.close]
    all_goals simp
  · cases f with
    | connect => simp [generate_http, ingestFails]
    | exec i =>
        rcases Nat.lt_or_ge i readings.length with h | h
        · obtain ⟨cAtRaise, heq, hbase⟩ :=
            runInserts_fail_lt (readings.map (toRow ts)) i
              (by simpa using h) ⟨store, []⟩
          rw [generate_http]
          simp [heq, Conn.close, hbase, ingestFails, h]
        · rw [generate_http]
          rw [runInserts_fail_ge (readings.map (toRow ts)) i (by simpa using h)]
          simp [ingestFails, Conn.commit, Conn.close, Nat.not_lt.mpr h]
    | commitFail =>
        rw [generate_http]
        simp [runInserts_none, ingestFails, Conn.close]
        all_goals simp

/-- The durable store after `generate_timer`: same case split as for
`generate_http`. -/
theorem generate_timer_fst (store : List Row) (readings : List SensorReading)
    (ts : Nat) (fail : Option IngestFail) :
    (generate_timer store readings ts fail).fst =
      if ingestFails fail readings.length then store
      else store ++ readings.map (toRow ts) := by
  rcases fail with _ | f
  · rw [generate_timer]
    simp [runInserts_none, ingestFails, Conn.commit, Conn.close]
    all_goals simp
  · cases f with
    | connect => simp [generate_timer, ingestFails]
    | exec i =>
        rcases Nat.lt_or_ge i readings.length with h | h
        · obtain ⟨cAtRaise, heq, hbase⟩ :=
            runInserts_fail_lt (readings.map (toRow ts)) i
              (by simpa using h) ⟨store, []⟩
          rw [generate_timer]
          simp [heq, Conn.close, hbase, ingestFails, h]
        · rw [generate_timer]
          rw [runInserts_fail_ge (readings.map (toRow ts)) i (by simpa using h)]
          simp [ingestFails, Conn.commit, Conn.close, Nat.not_lt.mpr h]
    | commitFail =>
        rw [generate_timer]
        simp [runInserts_none, ingestFails, Conn.close]
        all_goals simp

/-- The HTTP response of `generate_http`: the fixed error body exactly
when the injected failure fires, else the 200 JSON body. -/
theorem generate_http_snd (store : List Row) (readings : List SensorReading)
    (ts : Nat) (fail : Option IngestFail) :
    (generate_http store readings ts fail).snd =
      if ingestFails fail readings.length then
        .error "Error inserting into SQL"
      else .ok readings.length ts readings := by
  rcases fail with _ | f
  · rw [generate_http]
    simp [runInserts_none, ingestFails]
    all_goals simp
  · cases f with
    | connect => simp [generate_http, ingestFails]
    | exec i =>
        rcases Nat.lt_or_ge i readings.length with h | h
        · obtain ⟨cAtRaise, heq, _⟩ :=
            runInserts_fail_lt (readings.map (toRow ts)) i
              (by simpa using h) ⟨store, []⟩
          rw [generate_http]
          simp [heq, ingestFails, h]
        · rw [generate_http]
          rw [runInserts_fail_ge (readings.map (toRow ts)) i (by simpa using h)]
          simp [ingestFails, Nat.not_lt.mpr h]
    | commitFail =>
        rw [generate_http]
        simp [runInserts_none, ingestFails]
        all_goals simp

/-! ## Claim theorems: ingestion paths -/

/-- C1: every ingestion call (HTTP or timer) writes its batch
atomically — on success all rows of the batch become visible, and on
any mid-batch failure (connect, any insert, or the commit) the store is
exactly as before the call. -/
theorem batch_write_atomic (store : List Row) (readings : List SensorReading)
    (ts : Nat) (fail : Option IngestFail) :
    (generate_http store readings ts fail).fst =
      (if ingestFails fail readings.length then store
       else store ++ readings.map (toRow ts)) ∧
    (generate_timer store readings ts fail).fst =
      (if ingestFails fail readings.length then store
       else store ++ readings.map (toRow ts)) :=
  ⟨generate_http_fst store readings ts fail,
   generate_timer_fst store readings ts fail⟩

/-- C5: when the store is unreachable (or any insert-path failure
fires), `GET /generate` returns HTTP 500 with the error body, inserts
no rows, and the handler returns normally — a subsequent call with a
reachable store succeeds with 200 and appends its batch. -/
theorem generate_http_failure_500 (store : List Row)
    (readings readings2 : List SensorReading) (ts ts2 : Nat)
    (f : IngestFail)
    (h : ingestFails (some f) readings.length = true) :
    (generate_http store readings ts (some f)).fst = store ∧
    (generate_http store readings ts (some f)).snd =
      .error "Error inserting into SQL" ∧
    (generate_http store readings ts (some f)).snd.status = 500 ∧
    (generate_http store readings2 ts2 none).snd.status = 200 ∧
    (generate_http store readings2 ts2 none).fst =
      store ++ readings2.map (toRow ts2) := by
  refine ⟨?_, ?_, ?_, ?_, ?_⟩
  · rw [generate_http_fst]; simp [h]
  · rw [generate_http_snd]; simp [h]
  · rw [generate_http_snd]; simp [h, HttpResp.status]
  · rw [generate_http_snd]; simp [ingestFails, HttpResp.status]
  · rw [generate_http_fst]; simp [ingestFails]

theorem generate_http_failure_500_witness :
    ingestFails (some IngestFail.connect)
      ([] : List SensorReading).length = true ∧
    (generate_http [] [] 0 (some IngestFail.connect)).fst = [] ∧
    (generate_http [] [] 0 (some IngestFail.connect)).snd.status = 500 := by
  have h := generate_http_failure_500 [] [] [] 0 0 IngestFail.connect (by decide)
  exact ⟨by decide, h.1, h.2.2.1⟩

/-- C8: every row inserted by one successful ingestion call (HTTP or
timer) carries the batch's single timestamp, bound once before the
insert loop. -/
theorem batch_rows_share_timestamp (store : List Row)
    (readings : List SensorReading) (ts : Nat) :
    (generate_http store readings ts none).fst =
      store ++ readings.map (toRow ts) ∧
    (generate_timer store readings ts none).fst =
      store ++ readings.map (toRow ts) ∧
    ∀ r ∈ readings.map (toRow ts), r.readingTimeUtc = ts := by
  refine ⟨?_, ?_, ?_⟩
  · rw [generate_http_fst]; simp [ingestFails]
  · rw [generate_timer_fst]; simp [ingestFails]
  · intro r hr
    obtain ⟨x, _, rfl⟩ := List.mem_map.mp hr
    rfl

theorem batch_rows_share_timestamp_witness :
    toRow 7 ⟨1, 10, 15, 40, 500⟩ ∈
      ([⟨1, 10, 15, 40, 500⟩] : List SensorReading).map (toRow 7) ∧
    (toRow 7 ⟨1, 10, 15, 40, 500⟩).readingTimeUtc = 7 :=
  ⟨by decide,
   (batch_rows_share_timestamp [] [⟨1, 10, 15, 40, 500⟩] 7).2.2 _ (by decide)⟩

/-- C10: the HTTP-ingest and timer-ingest paths perform the same
ingestion — given the same store, readings, timestamp and failure, both
produce the identical store mutation, differing only in output sink. -/
theorem http_timer_same_mutation (store : List Row)
    (readings : List SensorReading) (ts : Nat) (fail : Option IngestFail) :
    (generate_http store readings ts fail).fst =
      (generate_timer store readings ts fail).fst := by
  rw [generate_http_fst, generate_timer_fst]

/-! ## Lemmas about the aggregation query -/

theorem foldl_min_le_init (l : List ℚ) : ∀ a : ℚ, l.foldl min a ≤ a := by
  induction l with
  | nil => intro a; exact le_refl a
  | cons x xs ih =>
      intro a
      exact le_trans (ih (min a x)) (min_le_left a x)

theorem foldl_min_le_mem (l : List ℚ) :
    ∀ a x, x ∈ l → l.foldl min a ≤ x := by
  induction l with
  | nil => intro a x hx; simp at hx
  | cons y ys ih =>
      intro a x hx
      rcases List.mem_cons.mp hx with rfl | hmem
      · exact le_trans (foldl_min_le_init ys (min a x)) (min_le_right a x)
      · exact ih (min a y) x hmem

theorem listMin_le_mem (l : List ℚ) (x : ℚ) (hx : x ∈ l) :
    listMin l ≤ x := by
  cases l with
  | nil => simp at hx
  | cons y ys =>
      rcases List.mem_cons.mp hx with rfl | hmem
      · exact foldl_min_le_init ys x
      · exact foldl_min_le_mem ys y x hmem

theorem le_foldl_max_init (l : List ℚ) : ∀ a : ℚ, a ≤ l.foldl max a := by
  induction l with
  | nil => intro a; exact le_refl a
  | cons x xs ih =>
      intro a
      exact le_trans (le_max_left a x) (ih (max a x))

theorem mem_le_foldl_max (l : List ℚ) :
    ∀ a x, x ∈ l → x ≤ l.foldl max a := by
  induction l with
  | nil => intro a x hx; simp at hx
  | cons y ys ih =>
      intro a x hx
      rcases List.mem_cons.mp hx with rfl | hmem
      · exact le_trans (le_max_right a x) (le_foldl_max_init ys (max a x))
      · exact ih (max a y) x hmem

theorem mem_le_listMax (l : List ℚ) (x : ℚ) (hx : x ∈ l) :
    x ≤ listMax l := by
  cases l with
  | nil => simp at hx
  | cons y ys =>
      rcases List.mem_cons.mp hx with rfl | hmem
      · exact le_foldl_max_init ys x
      · exact mem_le_foldl_max ys y x hmem

theorem length_mul_le_sum (l : List ℚ) (m : ℚ) (h : ∀ x ∈ l, m ≤ x) :
    (l.length : ℚ) * m ≤ l.sum := by
  induction l with
  | nil => simp
  | cons x xs ih =>
      have hx := h x (List.mem_cons_self x xs)
      have hxs := ih (fun y hy => h y (List.mem_cons_of_mem x hy))
      simp only [List.length_cons, List.sum_cons]
      push_cast
      linarith

theorem sum_le_length_mul (l : List ℚ) (m : ℚ) (h : ∀ x ∈ l, x ≤ m) :
    l.sum ≤ (l.length : ℚ) * m := by
  induction l with
  | nil => simp
  | cons x xs ih =>
      have hx := h x (List.mem_cons_self x xs)
      have hxs := ih (fun y hy => h y (List.mem_cons_of_mem x hy))
      simp only [List.length_cons, List.sum_cons]
      push_cast
      linarith

theorem listMin_le_listAvg (l : List ℚ) (h : l ≠ []) :
    listMin l ≤ listAvg l := by
  have hlen : (0 : ℚ) < l.length := by
    exact_mod_cast List.length_pos.mpr h
  rw [listAvg, le_div_iff₀ hlen]
  calc listMin l * (l.length : ℚ) = (l.length : ℚ) * listMin l := by ring
  _ ≤ l.sum := length_mul_le_sum l _ (fun x hx => listMin_le_mem l x hx)

theorem listAvg_le_listMax (l : List ℚ) (h : l ≠ []) :
    listAvg l ≤ listMax l := by
  have hlen : (0 : ℚ) < l.length := by
    exact_mod_cast List.length_pos.mpr h
  rw [listAvg, div_le_iff₀ hlen]
  calc l.sum ≤ (l.length : ℚ) * listMax l :=
        sum_le_length_mul l _ (fun x hx => mem_le_listMax l x hx)
  _ = listMax l * (l.length : ℚ) := by ring

theorem mem_sensorIdsSorted (store : List Row) (sid : Nat) :
    sid ∈ sensorIdsSorted store ↔ sid ∈ store.map Row.sensorId := by
  rw [sensorIdsSorted, (List.perm_insertionSort (· ≤ ·) _).mem_iff]
  exact List.mem_dedup

theorem rowsFor_ne_nil (store : List Row) (sid : Nat)
    (h : sid ∈ store.map Row.sensorId) : rowsFor store sid ≠ [] := by
  obtain ⟨r, hr, hsid⟩ := List.mem_map.mp h
  exact List.ne_nil_of_mem (List.mem_filter.mpr ⟨hr, by simp [hsid]⟩)

theorem stats_query_ids (store : List Row) :
    (stats_query store).map SensorStats.sensor_id = sensorIdsSorted store := by
  rw [stats_query, List.map_map]
  have hcomp : SensorStats.sensor_id ∘ statsFor store = id :=
    funext fun sid => rfl
  rw [hcomp, List.map_id]

theorem sensorIdsSorted_sorted_lt (store : List Row) :
    List.Sorted (· < ·) (sensorIdsSorted store) := by
  have hs : List.Sorted (· ≤ ·) (sensorIdsSorted store) :=
    List.sorted_insertionSort (· ≤ ·) _
  have hn : (sensorIdsSorted store).Nodup :=
    (List.perm_insertionSort (· ≤ ·) _).nodup_iff.mpr (List.nodup_dedup _)
  exact hs.lt_of_le hn

/-! ## Claim theorems: aggregation -/

/-- C2: every per-sensor stats row the aggregation query returns
satisfies `min ≤ avg ≤ max` for each of the four metrics, for every
store content (hence for every sequence of appends). -/
theorem stats_min_avg_max (store : List Row) (st : SensorStats)
    (h : st ∈ stats_query store) :
    (st.temperature_min ≤ st.temperature_avg ∧
      st.temperature_avg ≤ st.temperature_max) ∧
    (st.wind_min ≤ st.wind_avg ∧ st.wind_avg ≤ st.wind_max) ∧
    (st.humidity_min ≤ st.humidity_avg ∧
      st.humidity_avg ≤ st.humidity_max) ∧
    (st.co2_min ≤ st.co2_avg ∧ st.co2_avg ≤ st.co2_max) := by
  obtain ⟨sid, hsid, rfl⟩ := List.mem_map.mp h
  have hne : rowsFor store sid ≠ [] :=
    rowsFor_ne_nil store sid ((mem_sensorIdsSorted store sid).mp hsid)
  have hmap : ∀ f : Row → ℚ, (rowsFor store sid).map f ≠ [] := by
    intro f hf
    exact hne (List.map_eq_nil_iff.mp hf)
  refine ⟨⟨?_, ?_⟩, ⟨?_, ?_⟩, ⟨?_, ?_⟩, ⟨?_, ?_⟩⟩
  · exact listMin_le_listAvg _ (hmap Row.temperature)
  · exact listAvg_le_listMax _ (hmap Row.temperature)
  · exact listMin_le_listAvg _ (hmap Row.windSpeed)
  · exact listAvg_le_listMax _ (hmap Row.windSpeed)
  · exact listMin_le_listAvg _ (hmap Row.humidity)
  · exact listAvg_le_listMax _ (hmap Row.humidity)
  · exact listMin_le_listAvg _ (hmap Row.co2)
  · exact listAvg_le_listMax _ (hmap Row.co2)

theorem stats_min_avg_max_witness :
    statsFor [⟨1, 10, 15, 40, 500, 0⟩] 1 ∈
      stats_query [⟨1, 10, 15, 40, 500, 0⟩] ∧
    (statsFor [⟨1, 10, 15, 40, 500, 0⟩] 1).temperature_min ≤
      (statsFor [⟨1, 10, 15, 40, 500, 0⟩] 1).temperature_avg := by
  have hq : stats_query [⟨1, 10, 15, 40, 500, 0⟩] =
      [statsFor [⟨1, 10, 15, 40, 500, 0⟩] 1] := rfl
  have hmem : statsFor [⟨1, 10, 15, 40, 500, 0⟩] 1 ∈
      stats_query [⟨1, 10, 15, 40, 500, 0⟩] := by
    rw [hq]; exact List.mem_singleton_self _
  exact ⟨hmem, (stats_min_avg_max _ _ hmem).1.1⟩

/-- C6: the aggregation query returns per-sensor stats in strictly
ascending `sensor_id` order, without duplicates, containing exactly the
sensor ids present in the store. -/
theorem stats_sorted_one_per_sensor (store : List Row) :
    List.Sorted (· < ·) ((stats_query store).map SensorStats.sensor_id) ∧
    ((stats_query store).map SensorStats.sensor_id).Nodup ∧
    ∀ sid, sid ∈ (stats_query store).map SensorStats.sensor_id ↔
      sid ∈ store.map Row.sensorId := by
  rw [stats_query_ids]
  exact ⟨sensorIdsSorted_sorted_lt store,
    (List.perm_insertionSort (· ≤ ·) _).nodup_iff.mpr (List.nodup_dedup _),
    fun sid => mem_sensorIdsSorted store sid⟩

/-- C7: a sensor id with no readings never appears in the aggregation
result, and the empty store yields the empty result. -/
theorem stats_absent_sensor_omitted (store : List Row) (sid : Nat)
    (h : sid ∉ store.map Row.sensorId) :
    stats_query [] = [] ∧
    ∀ st ∈ stats_query store, st.sensor_id ≠ sid := by
  refine ⟨rfl, ?_⟩
  intro st hst heq
  obtain ⟨s, hs, rfl⟩ := List.mem_map.mp hst
  have hss : s = sid := heq
  exact h (hss ▸ (mem_sensorIdsSorted store s).mp hs)

theorem stats_absent_sensor_omitted_witness :
    (5 ∉ ([⟨1, 10, 15, 40, 500, 0⟩] : List Row).map Row.sensorId) ∧
    stats_query [] = [] :=
  ⟨by decide,
   (stats_absent_sensor_omitted [⟨1, 10, 15, 40, 500, 0⟩] 5 (by decide)).1⟩

/-- C9: the stats computation has no write side effect (the store it
returns is the store it was given), and two successive calls with no
intervening append return identical results. -/
theorem stats_read_idempotent_pure (store : List Row) (connectFails : Bool) :
    (stats_http store connectFails).fst = store ∧
    (stats_http ((stats_http store false).fst) false).snd =
      (stats_http store false).snd := by
  cases connectFails <;> simp [stats_http]

/-! ## Claim theorems: the reading generator -/

theorem uniform_mem (a b u : ℚ) (hab : a ≤ b) (h0 : 0 ≤ u) (h1 : u ≤ 1) :
    a ≤ uniform a b u ∧ uniform a b u ≤ b := by
  constructor
  · have hnn : 0 ≤ (b - a) * u := mul_nonneg (by linarith) h0
    rw [uniform]; linarith
  · have hub : (b - a) * u ≤ (b - a) * 1 :=
      mul_le_mul_of_nonneg_left h1 (by linarith)
    rw [uniform]; linarith

/-- C3: for every batch size `count > 0` (the source fixes 20) and
every randomness source with draws in `[0, 1]`, the generator returns
exactly `count` readings with `sensor_id` running `1..count`, and every
metric of every reading lies within its documented range. -/
theorem generate_count_ids_ranges (count : Nat) (rand : Nat → ℚ)
    (_hcount : 0 < count) (hrand : ∀ i, 0 ≤ rand i ∧ rand i ≤ 1) :
    (generate_sensor_readings count rand).length = count ∧
    (generate_sensor_readings count rand).map SensorReading.sensor_id =
      List.range' 1 count ∧
    ∀ r ∈ generate_sensor_readings count rand,
      (5 ≤ r.temperature ∧ r.temperature ≤ 18) ∧
      (12 ≤ r.wind ∧ r.wind ≤ 24) ∧
      (30 ≤ r.humidity ∧ r.humidity ≤ 60) ∧
      (400 ≤ r.co2 ∧ r.co2 ≤ 1600) := by
  refine ⟨?_, ?_, ?_⟩
  · simp [generate_sensor_readings]
  · rw [generate_sensor_readings, List.map_map, List.range'_eq_map_range]
    apply List.map_congr_left
    intro k _
    show k + 1 = 1 + k
    omega
  · intro r hr
    rw [generate_sensor_readings] at hr
    obtain ⟨k, _, rfl⟩ := List.mem_map.mp hr
    exact ⟨uniform_mem 5 18 _ (by norm_num) (hrand (4 * k)).1 (hrand (4 * k)).2,
      uniform_mem 12 24 _ (by norm_num)
        (hrand (4 * k + 1)).1 (hrand (4 * k + 1)).2,
      uniform_mem 30 60 _ (by norm_num)
        (hrand (4 * k + 2)).1 (hrand (4 * k + 2)).2,
      uniform_mem 400 1600 _ (by norm_num)
        (hrand (4 * k + 3)).1 (hrand (4 * k + 3)).2⟩

theorem generate_count_ids_ranges_witness :
    0 < 2 ∧
    (generate_sensor_readings 2 (fun _ => 1 / 2)).length = 2 ∧
    (generate_sensor_readings 2 (fun _ => 1 / 2)).map
      SensorReading.sensor_id = List.range' 1 2 := by
  have h := generate_count_ids_ranges 2 (fun _ => 1 / 2) (by decide)
    (fun i => ⟨by norm_num, by norm_num⟩)
  exact ⟨by decide, h.1, h.2.1⟩

/-! ## Lemmas about interleaved concurrent appends -/

theorem dbRun_nil (s : DB) : dbRun s [] = s := rfl

theorem dbRun_cons (s : DB) (a : DBAction) (as : List DBAction) :
    dbRun s (a :: as) = dbRun (dbStep s a) as := rfl

theorem connActions_nil (i : Nat) : connActions i [] = [] := rfl

theorem connActions_cons (i : Nat) (a : DBAction) (as : List DBAction) :
    connActions i (a :: as) =
      if a.connOf = i then a :: connActions i as else connActions i as := by
  rw [connActions, List.filter_cons]
  by_cases h : a.connOf = i <;> simp [h, connActions]

theorem dbStep_pending (s : DB) (a : DBAction) (i : Nat) :
    (dbStep s a).pending i =
      if a.connOf = i then pendingStep (s.pending i) a else s.pending i := by
  cases a with
  | exec c r =>
      by_cases h : c = i
      · subst h; simp [dbStep, pendingStep, DBAction.connOf]
      · simp [dbStep, pendingStep, DBAction.connOf, h, Ne.symm h]
  | commit c =>
      by_cases h : c = i
      · subst h; simp [dbStep, pendingStep, DBAction.connOf]
      · simp [dbStep, pendingStep, DBAction.connOf, h, Ne.symm h]

theorem dbRun_pending (i : Nat) (sched : List DBAction) :
    ∀ s : DB, (dbRun s sched).pending i =
      (connActions i sched).foldl pendingStep (s.pending i) := by
  induction sched with
  | nil => intro s; rfl
  | cons a as ih =>
      intro s
      rw [dbRun_cons, ih (dbStep s a), connActions_cons]
      by_cases h : a.connOf = i
      · rw [if_pos h, List.foldl_cons]
        congr 1
        rw [dbStep_pending, if_pos h]
      · rw [if_neg h]
        congr 1
        rw [dbStep_pending, if_neg h]

theorem foldl_pendingStep_commit (xs : List DBAction) (j : Nat)
    (buf : List Row) :
    List.foldl pendingStep buf (xs ++ [DBAction.commit j]) = [] := by
  rw [List.foldl_append]; rfl

theorem dbWeight_step (n : Nat) (s : DB) (a : DBAction)
    (h : a.connOf < n) :
    dbWeight n (dbStep s a) =
      dbWeight n s + (if a.isExec then 1 else 0) := by
  cases a with
  | exec c r =>
      simp only [DBAction.connOf] at h
      simp only [dbStep, dbWeight, DBAction.isExec, if_pos]
      have hpt : ∀ i ∈ Finset.range n,
          (if i = c then s.pending i ++ [r] else s.pending i).length =
            (s.pending i).length + (if c = i then 1 else 0) := by
        intro i _
        by_cases hic : i = c
        · subst hic; simp
        · simp [hic, Ne.symm hic]
      rw [Finset.sum_congr rfl hpt, Finset.sum_add_distrib,
        Finset.sum_ite_eq (Finset.range n) c (fun _ => 1)]
      simp [Finset.mem_range.mpr h]
      omega
  | commit c =>
      simp only [DBAction.connOf] at h
      have hc : c ∈ Finset.range n := Finset.mem_range.mpr h
      simp only [dbStep, dbWeight, DBAction.isExec, List.length_append]
      have hnew : ∑ i ∈ Finset.range n,
          (if i = c then ([] : List Row) else s.pending i).length =
            ∑ i ∈ (Finset.range n).erase c, (s.pending i).length := by
        rw [← Finset.add_sum_erase (Finset.range n)
          (fun i => (if i = c then ([] : List Row) else s.pending i).length) hc]
        have h0 : (if c = c then ([] : List Row) else s.pending c).length = 0 := by
          simp
        rw [h0, Nat.zero_add]
        apply Finset.sum_congr rfl
        intro i hi
        rw [if_neg (Finset.mem_erase.mp hi).1]
      have hold : (s.pending c).length +
          ∑ i ∈ (Finset.range n).erase c, (s.pending i).length =
            ∑ i ∈ Finset.range n, (s.pending i).length :=
        Finset.add_sum_erase (Finset.range n) (fun i => (s.pending i).length) hc
      rw [hnew, ← hold]
      simp
      omega

theorem dbWeight_run (n : Nat) (sched : List DBAction) :
    ∀ s : DB, (∀ a ∈ sched, a.connOf < n) →
      dbWeight n (dbRun s sched) =
        dbWeight n s + sched.countP (fun a => a.isExec) := by
  induction sched with
  | nil => intro s _; simp [dbRun_nil, List.countP_nil]
  | cons a as ih =>
      intro s h
      rw [dbRun_cons, ih (dbStep s a)
          (fun b hb => h b (List.mem_cons_of_mem a hb)),
        dbWeight_step n s a (h a (List.mem_cons_self a as)),
        List.countP_cons]
      have : (fun (b : DBAction) => b.isExec) a = a.isExec := rfl
      omega

theorem countP_isExec_partition (n : Nat) (sched : List DBAction)
    (h : ∀ a ∈ sched, a.connOf < n) :
    sched.countP (fun a => a.isExec) =
      ∑ i ∈ Finset.range n, (connActions i sched).countP (fun a => a.isExec) := by
  induction sched with
  | nil => simp [connActions_nil]
  | cons a as ih =>
      have ha : a.connOf < n := h a (List.mem_cons_self a as)
      have has : ∀ b ∈ as, b.connOf < n :=
        fun b hb => h b (List.mem_cons_of_mem a hb)
      have hpt : ∀ i ∈ Finset.range n,
          (connActions i (a :: as)).countP (fun b => b.isExec) =
            (connActions i as).countP (fun b => b.isExec) +
              (if a.connOf = i then (if a.isExec then 1 else 0) else 0) := by
        intro i _
        rw [connActions_cons]
        by_cases hic : a.connOf = i
        · simp [hic, List.countP_cons]
        · simp [hic]
      rw [List.countP_cons, Finset.sum_congr rfl hpt, Finset.sum_add_distrib,
        Finset.sum_ite_eq (Finset.range n) a.connOf
          (fun _ => if a.isExec then 1 else 0),
        ← ih has]
      simp [Finset.mem_range.mpr ha]

theorem countP_isExec_map_exec (i : Nat) (rows : List Row) :
    ((rows.map (DBAction.exec i)).countP (fun a => a.isExec)) = rows.length := by
  induction rows with
  | nil => rfl
  | cons r rs ih => simp [List.countP_cons, DBAction.isExec, ih]

/-! ## Claim theorem: concurrent appends -/

/-- C4: any interleaving of `N` concurrent ingestion calls, each
staging a batch of `K` rows on its own connection and committing once,
with no failures, leaves exactly `N × K` new rows committed — no lost
and no duplicated writes. -/
theorem concurrent_appends_no_lost_rows (init : List Row)
    (batches : List (List Row)) (K : Nat) (sched : List DBAction)
    (hvalid : validSchedule sched batches)
    (hK : ∀ b ∈ batches, b.length = K) :
    (dbRun { committed := init, pending := fun _ => [] } sched).committed.length =
      init.length + batches.length * K := by
  obtain ⟨hconn, hacts⟩ := hvalid
  have hW := dbWeight_run batches.length sched
    { committed := init, pending := fun _ => [] } hconn
  have hW0 : dbWeight batches.length
      { committed := init, pending := fun _ => ([] : List Row) } =
        init.length := by
    simp [dbWeight]
  have hpend : ∀ i < batches.length,
      (dbRun { committed := init, pending := fun _ => ([] : List Row) }
        sched).pending i = [] := by
    intro i hi
    rw [dbRun_pending i sched, hacts i hi]
    exact foldl_pendingStep_commit _ i _
  have hWfinal : dbWeight batches.length
      (dbRun { committed := init, pending := fun _ => [] } sched) =
        (dbRun { committed := init, pending := fun _ => [] }
          sched).committed.length := by
    rw [dbWeight]
    have hz : ∑ i ∈ Finset.range batches.length,
        ((dbRun { committed := init, pending := fun _ => ([] : List Row) }
          sched).pending i).length = 0 := by
      apply Finset.sum_eq_zero
      intro i hi
      rw [hpend i (Finset.mem_range.mp hi)]
      rfl
    omega
  have hcount : sched.countP (fun a => a.isExec) = batches.length * K := by
    rw [countP_isExec_partition batches.length sched hconn]
    have hterm : ∀ i ∈ Finset.range batches.length,
        (connActions i sched).countP (fun a => a.isExec) = K := by
      intro i hi
      have hi' := Finset.mem_range.mp hi
      rw [hacts i hi', List.countP_append, countP_isExec_map_exec]
      have hmem : batches.getD i [] ∈ batches := by
        rw [List.getD_eq_getElem?_getD, List.getElem?_eq_getElem hi',
          Option.getD_some]
        exact List.getElem_mem hi'
      have hcommit :
          List.countP (fun a => a.isExec) [DBAction.commit i] = 0 := rfl
      rw [hcommit, Nat.add_zero, hK _ hmem]
    rw [Finset.sum_congr rfl hterm, Finset.sum_const, Finset.card_range,
      smul_eq_mul]
  rw [← hWfinal, hW, hW0, hcount]

theorem concurrent_appends_no_lost_rows_witness :
    validSchedule
      [DBAction.exec 0 ⟨1, 1, 1, 1, 1, 0⟩, DBAction.exec 1 ⟨2, 2, 2, 2, 2, 0⟩,
       DBAction.exec 0 ⟨3, 3, 3, 3, 3, 0⟩, DBAction.commit 0,
       DBAction.exec 1 ⟨4, 4, 4, 4, 4, 0⟩, DBAction.commit 1]
      [[⟨1, 1, 1, 1, 1, 0⟩, ⟨3, 3, 3, 3, 3, 0⟩],
       [⟨2, 2, 2, 2, 2, 0⟩, ⟨4, 4, 4, 4, 4, 0⟩]] ∧
    (dbRun { committed := [], pending := fun _ => [] }
      [DBAction.exec 0 ⟨1, 1, 1, 1, 1, 0⟩, DBAction.exec 1 ⟨2, 2, 2, 2, 2, 0⟩,
       DBAction.exec 0 ⟨3, 3, 3, 3, 3, 0⟩, DBAction.commit 0,
       DBAction.exec 1 ⟨4, 4, 4, 4, 4, 0⟩,
       DBAction.commit 1]).committed.length = 0 + 2 * 2 := by
  constructor
  · decide
  · exact concurrent_appends_no_lost_rows []
      [[⟨1, 1, 1, 1, 1, 0⟩, ⟨3, 3, 3, 3, 3, 0⟩],
       [⟨2, 2, 2, 2, 2, 0⟩, ⟨4, 4, 4, 4, 4, 0⟩]] 2
      [DBAction.exec 0 ⟨1, 1, 1, 1, 1, 0⟩, DBAction.exec 1 ⟨2, 2, 2, 2, 2, 0⟩,
       DBAction.exec 0 ⟨3, 3, 3, 3, 3, 0⟩, DBAction.commit 0,
       DBAction.exec 1 ⟨4, 4, 4, 4, 4, 0⟩, DBAction.commit 1]
      (by decide) (by decide)
